import Mathlib

/-!
Verification of the EDL-Py entry-guidance core against its specification.

The Python sources `EntryGuidance/EntryEquations.py`, `EntryGuidance/MPC.py`
and `EntryGuidance/ParametrizedPlanner.py` are shallowly embedded below.
Machine floats are modelled by real numbers; pluggable collaborators
(atmosphere model, vehicle aerodynamic tables, ODE integrator, optimizer,
trigger search) are abstracted as function parameters exactly where the
source calls out to them; Python exceptions are modelled with `Except`.
-/

open Real

/-! ## Data model: Planet, EntryVehicle, Entry (EntryEquations.py) -/

/-- External collaborator `Planet` (module not part of the core): only the
fields read by the core are modelled.  `atmosphere h` returns the pair
(density, speed of sound) at altitude `h`. -/
structure Planet where
  radius : ℝ
  mu : ℝ
  omega : ℝ
  atmosphere : ℝ → ℝ × ℝ

/-- External collaborator `EntryVehicle`: `aerodynamic_coefficients M`
returns `(cD, cL)` at Mach `M`; `mdot` maps throttle to mass-flow rate. -/
structure EntryVehicle where
  area : ℝ
  mass : ℝ
  ThrustApplied : ℝ
  aerodynamic_coefficients : ℝ → ℝ × ℝ
  mdot : ℝ → ℝ

/-- The dynamics model selected by `Entry.__init__` (EntryEquations.py
lines 20-28): either the non-rotating 3-DOF model `__entry_3dof` or the
rotating-planet model `__entry_vinhs`. -/
inductive DynMode
  | threeDof
  | vinhs
  deriving DecidableEq

/-- The `Entry` object state (EntryEquations.py lines 12-28).
`dyn_model = none` models the constructor branch that only prints
`Inapproriate number of degrees of freedom.` and leaves `self.dyn_model`
unset. -/
structure Entry where
  planet : Planet
  vehicle : EntryVehicle
  powered : Bool
  drag_ratio : ℝ
  lift_ratio : ℝ
  dyn_model : Option DynMode

/-- `Entry.__init__` (EntryEquations.py lines 12-28).  For `DegFreedom == 2`
the source assigns `self.dyn_model = self.__entry_2dof`, but no method
`__entry_2dof` exists anywhere in the class, so the attribute lookup raises
`AttributeError` during construction; we model the raised exception as
`Except.error`.  For `DegFreedom == 3` the Coriolis flag selects the model.
Any other value falls into the final `else`, which only executes a `print`
statement: construction succeeds and `dyn_model` is never assigned. -/
def mkEntry (PlanetModel : Planet) (VehicleModel : EntryVehicle)
    (Coriolis : Bool) (DegFreedom : ℤ) (Powered : Bool) : Except String Entry :=
  if DegFreedom = 2 then
    Except.error "AttributeError"
  else if DegFreedom = 3 then
    Except.ok { planet := PlanetModel, vehicle := VehicleModel, powered := Powered,
                drag_ratio := 1, lift_ratio := 1,
                dyn_model := some (if Coriolis then DynMode.vinhs else DynMode.threeDof) }
  else
    Except.ok { planet := PlanetModel, vehicle := VehicleModel, powered := Powered,
                drag_ratio := 1, lift_ratio := 1,
                dyn_model := none }

/-- `Entry.update_ratios` (EntryEquations.py lines 31-33). -/
def Entry.update_ratios (e : Entry) (LR DR : ℝ) : Entry :=
  { e with drag_ratio := DR, lift_ratio := LR }

/-- `Entry.ignite` (EntryEquations.py lines 36-39). -/
def Entry.ignite (e : Entry) : Entry :=
  { e with powered := true }

/-- `Entry.__entry_3dof` (EntryEquations.py lines 52-77): non-rotating
3-DOF state derivative.  State layout `x = (r, θ, φ, v, γ, ψ, s, m)`,
control `u = (σ, throttle, _)`. -/
noncomputable def Entry.entry_3dof (e : Entry) (x : Fin 8 → ℝ) (_t : ℝ) (u : ℝ × ℝ × ℝ) :
    Fin 8 → ℝ :=
  let r := x 0
  let phi := x 2
  let v := x 3
  let gamma := x 4
  let psi := x 5
  let sigma := u.1
  let throttle := u.2.1
  let h := r - e.planet.radius
  let g := e.planet.mu / r ^ 2
  let rho := (e.planet.atmosphere h).1
  let a := (e.planet.atmosphere h).2
  let M := v / a
  let cD := (e.vehicle.aerodynamic_coefficients M).1
  let cL := (e.vehicle.aerodynamic_coefficients M).2
  let f := 0.5 * rho * e.vehicle.area * v ^ 2 / e.vehicle.mass
  let L := f * cL * e.lift_ratio
  let D := f * cD * e.drag_ratio
  ![v * sin gamma,
    v * cos gamma * cos psi / r / cos phi,
    v * cos gamma * sin psi / r,
    -D - g * sin gamma,
    L / v * cos sigma + cos gamma * (v / r - g / v),
    -L * sin sigma / v / cos gamma - v * cos gamma * cos psi * tan phi / r,
    -v / r * e.planet.radius * cos gamma,
    e.vehicle.mdot throttle]

/-- `Entry.__entry_vinhs` (EntryEquations.py lines 81-94).  The source
computes Coriolis corrections, but the line
`dpsi = 2*self.planet.omega(tan(gamma)*cos(phi)*sin(psi)-sin(phi))`
invokes the stored rotation rate `planet.omega` as a function (TypeError),
and the return line `self.__entry_3dof(x, t, control_fun)` references the
undefined name `control_fun` (NameError).  Every invocation therefore
raises before any derivative is returned; the raised exception is modelled
as `Except.error`. -/
noncomputable def Entry.entry_vinhs (e : Entry) (x : Fin 8 → ℝ) (_t : ℝ) (_u : ℝ × ℝ × ℝ) :
    Except String (Fin 8 → ℝ) :=
  let gamma := x 4
  let phi := x 2
  let psi := x 5
  let _dgamma := 2 * e.planet.omega * cos psi * cos phi
  let _unused := tan gamma * cos phi * sin psi - sin phi
  Except.error "TypeError"

/-- `Entry.__thrust_3dof` (EntryEquations.py lines 97-101). -/
noncomputable def Entry.thrust_3dof (e : Entry) (x : Fin 8 → ℝ) (u : ℝ × ℝ × ℝ) :
    Fin 8 → ℝ :=
  let v := x 3
  let gamma := x 4
  let m := x 7
  let throttle := u.2.1
  let thrustAngle := u.2.2
  ![0, 0, 0,
    e.vehicle.ThrustApplied * throttle * cos (thrustAngle - gamma) / m,
    e.vehicle.ThrustApplied * throttle * sin (thrustAngle - gamma) / (m * v),
    0, 0,
    e.vehicle.mdot throttle]

/-- Evaluation of `self.dyn_model(x, t, u)` for the stored mode. -/
noncomputable def Entry.dyn_model_eval (e : Entry) (mode : DynMode) (x : Fin 8 → ℝ) (t : ℝ)
    (u : ℝ × ℝ × ℝ) : Except String (Fin 8 → ℝ) :=
  match mode with
  | DynMode.threeDof => Except.ok (e.entry_3dof x t u)
  | DynMode.vinhs => e.entry_vinhs x t u

/-- `Entry.dynamics` (EntryEquations.py lines 42-47), applied at `(x, t)`:
when powered the thrust contribution is added to the selected dynamic
model's derivative.  Calling the returned lambda when `dyn_model` was
never assigned (invalid `DegFreedom`) raises `AttributeError`. -/
noncomputable def Entry.dynamics (e : Entry) (u : ℝ × ℝ × ℝ) (x : Fin 8 → ℝ) (t : ℝ) :
    Except String (Fin 8 → ℝ) :=
  match e.dyn_model with
  | none => Except.error "AttributeError"
  | some mode =>
    if e.powered then
      match e.dyn_model_eval mode x t u with
      | Except.ok d => Except.ok (fun i => d i + e.thrust_3dof x u i)
      | Except.error s => Except.error s
    else
      e.dyn_model_eval mode x t u

/-- `Entry.aeroforces` (EntryEquations.py lines 121-135): batch evaluation
of lift and drag magnitudes over paired radius/velocity samples.  Note the
source does NOT scale by `lift_ratio`/`drag_ratio` here. -/
noncomputable def Entry.aeroforces (e : Entry) (r v : List ℝ) : List ℝ × List ℝ :=
  let forces := (r.zip v).map (fun p =>
    let h := p.1 - e.planet.radius
    let rho := (e.planet.atmosphere h).1
    let a := (e.planet.atmosphere h).2
    let M := p.2 / a
    let cD := (e.vehicle.aerodynamic_coefficients M).1
    let cL := (e.vehicle.aerodynamic_coefficients M).2
    let f := 0.5 * rho * e.vehicle.area * p.2 ^ 2 / e.vehicle.mass
    (f * cL, f * cD))
  (forces.map Prod.fst, forces.map Prod.snd)

/-- Vector-literal evaluation at index 5, in the style of
`Matrix.cons_val_four`. -/
@[simp]
theorem vecCons_val_five {α : Type _} {m : ℕ} (x : α)
    (u : Fin (m + 5) → α) :
    Matrix.vecCons x u 5 =
      Matrix.vecHead (Matrix.vecTail (Matrix.vecTail (Matrix.vecTail
        (Matrix.vecTail u)))) :=
  rfl

/-- Vector-literal evaluation at index 6. -/
@[simp]
theorem vecCons_val_six {α : Type _} {m : ℕ} (x : α)
    (u : Fin (m + 6) → α) :
    Matrix.vecCons x u 6 =
      Matrix.vecHead (Matrix.vecTail (Matrix.vecTail (Matrix.vecTail
        (Matrix.vecTail (Matrix.vecTail u))))) :=
  rfl

/-- Vector-literal evaluation at index 7. -/
@[simp]
theorem vecCons_val_seven {α : Type _} {m : ℕ} (x : α)
    (u : Fin (m + 7) → α) :
    Matrix.vecCons x u 7 =
      Matrix.vecHead (Matrix.vecTail (Matrix.vecTail (Matrix.vecTail
        (Matrix.vecTail (Matrix.vecTail (Matrix.vecTail u)))))) :=
  rfl

/-! ## Specification-side aerodynamic forces (spec section 4.1)

The spec states: `L` and `D` are lift and drag forces computed from
atmosphere density/speed-of-sound at altitude `h = r − R_planet`, Mach
number `v/a`, and vehicle aerodynamic coefficients, each scaled by the
current `lift_ratio`/`drag_ratio`.  This definition follows the spec's
words and is compared against the source-side `Entry.entry_3dof`. -/
noncomputable def specAeroforces (e : Entry) (r v : ℝ) : ℝ × ℝ :=
  let h := r - e.planet.radius
  let rho := (e.planet.atmosphere h).1
  let a := (e.planet.atmosphere h).2
  let M := v / a
  let cD := (e.vehicle.aerodynamic_coefficients M).1
  let cL := (e.vehicle.aerodynamic_coefficients M).2
  let f := 0.5 * rho * e.vehicle.area * v ^ 2 / e.vehicle.mass
  (f * cL * e.lift_ratio, f * cD * e.drag_ratio)

/-- C1: for every state with `v > 0`, `|γ| < π/2`, `|φ| < π/2` and every
control `(σ, throttle, ·)`, the non-rotating 3-DOF derivative matches the
spec's equations with `g = μ/r²`: `v̇ = −D − g sin γ`,
`γ̇ = (L/v) cos σ + cos γ (v/r − g/v)`,
`ψ̇ = −(L sin σ)/(v cos γ) − (v cos γ cos ψ tan φ)/r`, and
`ṡ = −(v/r)·R_planet·cos γ`, where `(L, D)` are the spec's aerodynamic
forces at altitude `r − R_planet` and Mach `v/a` scaled by the current
lift/drag ratios. -/
theorem c1_entry3dof_matches_spec (e : Entry) (x : Fin 8 → ℝ) (t : ℝ)
    (u : ℝ × ℝ × ℝ)
    (hv : 0 < x 3) (hγ : |x 4| < π / 2) (hφ : |x 2| < π / 2) :
    e.entry_3dof x t u 3 =
      -(specAeroforces e (x 0) (x 3)).2
        - e.planet.mu / (x 0) ^ 2 * sin (x 4) ∧
    e.entry_3dof x t u 4 =
      (specAeroforces e (x 0) (x 3)).1 / x 3 * cos u.1
        + cos (x 4) * (x 3 / x 0 - e.planet.mu / (x 0) ^ 2 / x 3) ∧
    e.entry_3dof x t u 5 =
      -((specAeroforces e (x 0) (x 3)).1 * sin u.1) / (x 3 * cos (x 4))
        - x 3 * cos (x 4) * cos (x 5) * tan (x 2) / x 0 ∧
    e.entry_3dof x t u 6 =
      -(x 3 / x 0) * e.planet.radius * cos (x 4) := by
  refine ⟨?_, ?_, ?_, ?_⟩ <;>
    simp [Entry.entry_3dof, specAeroforces, Matrix.cons_val_zero,
      Matrix.cons_val_one] <;> ring

/-- A concrete planet used to instantiate witnesses (the real `Planet`
model is an external collaborator, so any instance serves). -/
def testPlanet : Planet :=
  { radius := 1, mu := 1, omega := 0, atmosphere := fun _ => (1, 1) }

/-- A concrete vehicle used to instantiate witnesses. -/
def testVehicle : EntryVehicle :=
  { area := 1, mass := 1, ThrustApplied := 1,
    aerodynamic_coefficients := fun _ => (1, 1), mdot := fun _ => 0 }

/-- A concrete `Entry` in non-rotating 3-DOF mode. -/
def testEntry : Entry :=
  { planet := testPlanet, vehicle := testVehicle, powered := false,
    drag_ratio := 1, lift_ratio := 1, dyn_model := some DynMode.threeDof }

/-- A concrete state with `v = 1 > 0`, `γ = 0`, `φ = 0`. -/
def testState : Fin 8 → ℝ := ![2, 0, 0, 1, 0, 0, 0, 1]

theorem c1_entry3dof_matches_spec_witness :
    (0 < testState 3 ∧ |testState 4| < π / 2 ∧ |testState 2| < π / 2) ∧
    (testEntry.entry_3dof testState 0 (0, 0, 0) 3 =
      -(specAeroforces testEntry (testState 0) (testState 3)).2
        - testEntry.planet.mu / (testState 0) ^ 2 * sin (testState 4) ∧
    testEntry.entry_3dof testState 0 (0, 0, 0) 4 =
      (specAeroforces testEntry (testState 0) (testState 3)).1 / testState 3 * cos (0, 0, 0).1
        + cos (testState 4) * (testState 3 / testState 0
            - testEntry.planet.mu / (testState 0) ^ 2 / testState 3) ∧
    testEntry.entry_3dof testState 0 (0, 0, 0) 5 =
      -((specAeroforces testEntry (testState 0) (testState 3)).1 * sin (0, 0, 0).1)
          / (testState 3 * cos (testState 4))
        - testState 3 * cos (testState 4) * cos (testState 5) * tan (testState 2)
            / testState 0 ∧
    testEntry.entry_3dof testState 0 (0, 0, 0) 6 =
      -(testState 3 / testState 0) * testEntry.planet.radius * cos (testState 4)) := by
  have h3 : testState 3 = 1 := by norm_num [testState]
  have h4 : testState 4 = 0 := by norm_num [testState]
  have h2 : testState 2 = 0 := by norm_num [testState]
  have hhyp : 0 < testState 3 ∧ |testState 4| < π / 2 ∧ |testState 2| < π / 2 := by
    refine ⟨by rw [h3]; norm_num, ?_, ?_⟩ <;>
      simp [h4, h2] <;> positivity
  exact ⟨hhyp, c1_entry3dof_matches_spec testEntry testState 0 (0, 0, 0)
    hhyp.1 hhyp.2.1 hhyp.2.2⟩

/-! ## Claim C2: the rotating-planet (Coriolis) mode -/

/-- C2: the claim states the rotating-planet mode returns the non-rotating
3-DOF derivative for the same control vector plus a correction vector that
is nonzero only in the flight-path-angle and heading components.  The code
cannot do this: `__entry_vinhs` invokes `planet.omega` as a function and
passes the undefined name `control_fun` to `__entry_3dof`, so every
invocation raises an exception instead of returning a derivative.  This
theorem records the evaluated behaviour: an `Entry` constructed with
`Coriolis = True, DegFreedom = 3` raises on every dynamics call, and
`entry_vinhs` never produces a value. -/
theorem c2_vinhs_raises (p : Planet) (vm : EntryVehicle) (u : ℝ × ℝ × ℝ)
    (x : Fin 8 → ℝ) (t : ℝ) :
    (mkEntry p vm true 3 false).map (fun e => e.dynamics u x t) =
      Except.ok (Except.error "TypeError") ∧
    ∀ e : Entry, ¬ ∃ d, e.entry_vinhs x t u = Except.ok d := by
  refine ⟨rfl, ?_⟩
  rintro e ⟨d, hd⟩
  simp [Entry.entry_vinhs] at hd

/-! ## Claim C3: construction-time error behaviour -/

/-- C3 counterexample: the claim asserts that ANY `DegFreedom` value other
than 3 surfaces an error at construction time.  With `DegFreedom = 4`
(which differs from 3) construction succeeds: the constructor only prints
a message and returns an `Entry` whose `dyn_model` was never assigned. -/
theorem c3_counterexample :
    ((4 : ℤ) ≠ 3) ∧
    mkEntry testPlanet testVehicle false 4 false =
      Except.ok { planet := testPlanet, vehicle := testVehicle, powered := false,
                  drag_ratio := 1, lift_ratio := 1, dyn_model := none } := by
  exact ⟨by decide, rfl⟩

/-- C3 amended: constructing with `DegFreedom = 2` does fail fast — the
assignment `self.dyn_model = self.__entry_2dof` raises `AttributeError`
because the 2-DOF method does not exist.  `DegFreedom = 3` constructs the
selected 3-DOF engine.  Every other value, however, only prints a
diagnostic and returns an object whose `dyn_model` is unset, so the
failure surfaces as an `AttributeError` at the first dynamics call, not at
construction. -/
theorem c3_amended :
    (∀ (p : Planet) (vm : EntryVehicle) (c pow : Bool),
      mkEntry p vm c 2 pow = Except.error "AttributeError") ∧
    (∀ (p : Planet) (vm : EntryVehicle) (c pow : Bool),
      mkEntry p vm c 3 pow =
        Except.ok { planet := p, vehicle := vm, powered := pow,
                    drag_ratio := 1, lift_ratio := 1,
                    dyn_model := some (if c then DynMode.vinhs else DynMode.threeDof) }) ∧
    (∀ (p : Planet) (vm : EntryVehicle) (c pow : Bool) (d : ℤ),
      d ≠ 2 → d ≠ 3 →
      mkEntry p vm c d pow =
        Except.ok { planet := p, vehicle := vm, powered := pow,
                    drag_ratio := 1, lift_ratio := 1, dyn_model := none }) ∧
    (∀ (e : Entry) (u : ℝ × ℝ × ℝ) (x : Fin 8 → ℝ) (t : ℝ),
      e.dyn_model = none → e.dynamics u x t = Except.error "AttributeError") := by
  refine ⟨fun p vm c pow => rfl, fun p vm c pow => rfl, ?_, ?_⟩
  · intro p vm c pow d h2 h3
    simp [mkEntry, h2, h3]
  · intro e u x t h
    simp [Entry.dynamics, h]

theorem c3_amended_witness :
    (((4 : ℤ) ≠ 2) ∧ ((4 : ℤ) ≠ 3) ∧
      mkEntry testPlanet testVehicle false 4 false =
        Except.ok { planet := testPlanet, vehicle := testVehicle, powered := false,
                    drag_ratio := 1, lift_ratio := 1, dyn_model := none }) ∧
    (({ testEntry with dyn_model := none } : Entry).dyn_model = none ∧
      ({ testEntry with dyn_model := none } : Entry).dynamics (0, 0, 0) testState 0 =
        Except.error "AttributeError") := by
  refine ⟨⟨by decide, by decide,
    c3_amended.2.2.1 testPlanet testVehicle false false 4 (by decide) (by decide)⟩,
    rfl, c3_amended.2.2.2 _ (0, 0, 0) testState 0 rfl⟩

/-! ## Claim C9: ignite is a one-way transition -/

/-- C9: once `ignite()` is called the instance is permanently powered:
the predicate `powered = true` is preserved by every `Entry` operation
that yields an `Entry` (`update_ratios` and `ignite` itself), and every
dynamics function produced afterwards adds the thrust contribution, which
is nonzero only in the `v̇`, `γ̇` and mass-flow components. -/
theorem c9_ignite_oneway (e : Entry) (u : ℝ × ℝ × ℝ) (x : Fin 8 → ℝ)
    (t : ℝ) (lr dr : ℝ) :
    (e.ignite).powered = true ∧
    ((e.ignite).update_ratios lr dr).powered = true ∧
    ((e.ignite).ignite).powered = true ∧
    ((e.ignite).dyn_model = some DynMode.threeDof →
      (e.ignite).dynamics u x t =
        Except.ok (fun i =>
          (e.ignite).entry_3dof x t u i + (e.ignite).thrust_3dof x u i)) ∧
    ((e.ignite).thrust_3dof x u 0 = 0 ∧ (e.ignite).thrust_3dof x u 1 = 0 ∧
      (e.ignite).thrust_3dof x u 2 = 0 ∧ (e.ignite).thrust_3dof x u 5 = 0 ∧
      (e.ignite).thrust_3dof x u 6 = 0) := by
  refine ⟨rfl, rfl, rfl, ?_, rfl, rfl, rfl, rfl, rfl⟩
  intro h
  have h' : e.dyn_model = some DynMode.threeDof := h
  simp [Entry.dynamics, Entry.dyn_model_eval, Entry.ignite, h']

theorem c9_ignite_oneway_witness :
    (testEntry.ignite).dyn_model = some DynMode.threeDof ∧
    (testEntry.ignite).dynamics (0, 0, 0) testState 0 =
      Except.ok (fun i =>
        (testEntry.ignite).entry_3dof testState 0 (0, 0, 0) i +
          (testEntry.ignite).thrust_3dof testState (0, 0, 0) i) :=
  ⟨rfl, (c9_ignite_oneway testEntry (0, 0, 0) testState 0 1 1).2.2.2.1 rfl⟩

/-! ## The composite System and the aero-ratio filter (C10) -/

/-- Modelled from the spec: `Filter.FadingMemory` lives in `Filter.py`,
which is part of this repository but not among the provided sources.
Spec section 4.3: a first-order exponential estimator returning the
instantaneous derivative `gain × (measured − current)`. -/
def FadingMemory (currentValue measuredValue gain : ℝ) : ℝ :=
  gain * (measuredValue - currentValue)

/-- The composite `System` (EntryEquations.py lines 145-161): nominal
model, perturbed truth, and nav estimate, plus the filter gain. -/
structure System where
  model : Entry
  truth : Entry
  nav : Entry
  gain : ℝ

/-- The measured ratios computed inside `System.__filterUpdate`
(EntryEquations.py lines 173-177): nav-model aeroforce over nominal-model
aeroforce, evaluated at the navigated radius `x[8]` and velocity `x[11]`. -/
noncomputable def System.measuredRatios (sys : System) (x : Fin 18 → ℝ) : ℝ × ℝ :=
  let LD := sys.model.aeroforces [x 8] [x 11]
  let LmDm := sys.nav.aeroforces [x 8] [x 11]
  (LmDm.1.headD 0 / LD.1.headD 0, LmDm.2.headD 0 / LD.2.headD 0)

/-- `System.__filterUpdate` (EntryEquations.py lines 168-179). -/
noncomputable def System.filterUpdate (sys : System) (x : Fin 18 → ℝ) : ℝ × ℝ :=
  let RL := x 16
  let RD := x 17
  (FadingMemory RL (sys.measuredRatios x).1 sys.gain,
   FadingMemory RD (sys.measuredRatios x).2 sys.gain)

/-- C10: `aeroforces` is independent of the stored lift/drag ratios: any
two `Entry` instances differing only by an `update_ratios` call return
identical lift and drag sequences; consequently the measured ratio used
by the System filter never depends on the current ratio estimates — it is
unchanged by ratio updates on all three engines and depends on the state
only through the navigated radius `x[8]` and velocity `x[11]` (in
particular not on the ratio slots `x[16]`, `x[17]`). -/
theorem c10_aeroforces_ratio_independent :
    (∀ (e : Entry) (lr dr : ℝ) (r v : List ℝ),
      (e.update_ratios lr dr).aeroforces r v = e.aeroforces r v) ∧
    (∀ (sys : System) (lr dr lr2 dr2 lr3 dr3 : ℝ) (x : Fin 18 → ℝ),
      System.measuredRatios
        { sys with model := sys.model.update_ratios lr dr,
                   truth := sys.truth.update_ratios lr2 dr2,
                   nav := sys.nav.update_ratios lr3 dr3 } x =
        sys.measuredRatios x) ∧
    (∀ (sys : System) (x y : Fin 18 → ℝ), x 8 = y 8 → x 11 = y 11 →
      sys.measuredRatios x = sys.measuredRatios y) ∧
    (∀ (sys : System) (x : Fin 18 → ℝ),
      sys.filterUpdate x =
        (FadingMemory (x 16) (sys.measuredRatios x).1 sys.gain,
         FadingMemory (x 17) (sys.measuredRatios x).2 sys.gain)) := by
  refine ⟨fun e lr dr r v => rfl, fun sys lr dr lr2 dr2 lr3 dr3 x => rfl, ?_,
    fun sys x => rfl⟩
  intro sys x y h8 h11
  simp only [System.measuredRatios, h8, h11]

theorem c10_aeroforces_ratio_independent_witness :
    ((fun _ : Fin 18 => (1 : ℝ)) 8 = (fun i : Fin 18 => if i = 8 ∨ i = 11 then (1 : ℝ) else 2) 8 ∧
     (fun _ : Fin 18 => (1 : ℝ)) 11 = (fun i : Fin 18 => if i = 8 ∨ i = 11 then (1 : ℝ) else 2) 11) ∧
    System.measuredRatios
        { model := testEntry, truth := testEntry, nav := testEntry, gain := 0 }
        (fun _ => 1) =
      System.measuredRatios
        { model := testEntry, truth := testEntry, nav := testEntry, gain := 0 }
        (fun i => if i = 8 ∨ i = 11 then 1 else 2) := by
  have h8 : (fun _ : Fin 18 => (1 : ℝ)) 8 =
      (fun i : Fin 18 => if i = 8 ∨ i = 11 then (1 : ℝ) else 2) 8 := by norm_num
  have h11 : (fun _ : Fin 18 => (1 : ℝ)) 11 =
      (fun i : Fin 18 => if i = 8 ∨ i = 11 then (1 : ℝ) else 2) 11 := by norm_num
  exact ⟨⟨h8, h11⟩, c10_aeroforces_ratio_independent.2.2.1 _ _ _ h8 h11⟩

/-! ## The receding-horizon controller (MPC.py), claim C5 -/

/-- Reference data held by the controller (spec section 6): mappings from
velocity to reference bank angle and reference drag. -/
structure Refs where
  bank : ℝ → ℝ
  drag : ℝ → ℝ

/-- `lateral` (MPC.py lines 49-52): linearized end-of-horizon velocity
`vf = v + T·(D sin γ − 3.7)`. -/
noncomputable def lateral (velocity drag fpa T : ℝ) : ℝ :=
  let vdot := drag * sin fpa - 3.7
  velocity + T * vdot

/-- `optimize` (MPC.py lines 54-72).  The scipy searches are external
collaborators, so their best-found points are abstracted as parameters:
`minimizeSol` stands for the `N > 1` vector solution `sol.x` of
`minimize`, `minimizeScalarSol` for the scalar solution `sol.x` of
`minimize_scalar`.  The branch structure on `N` is the source's. -/
def optimize (minimizeSol : List ℝ) (minimizeScalarSol : ℝ) (N : ℕ) :
    Sum ℝ (List ℝ) :=
  if N > 1 then Sum.inr minimizeSol else Sum.inl minimizeScalarSol

/-- `controller` (MPC.py lines 37-47): runs the optimizer, then returns
the first segment with its sign forced to the sign of the reference bank
function at the `lateral` velocity.  `sol.x[0]` (vector path) and `sol.x`
(scalar path) are modelled by matching on the optimizer's result. -/
noncomputable def controller (minimizeSol : List ℝ) (minimizeScalarSol : ℝ)
    (N : ℕ) (T : ℝ) (refs : Refs) (velocity drag fpa : ℝ) : ℝ :=
  let sol := optimize minimizeSol minimizeScalarSol N
  let vf := lateral velocity drag fpa T
  if N > 1 then
    (match sol with
      | Sum.inr xs => xs.headD 0
      | Sum.inl x => x) * Real.sign (refs.bank vf)
  else
    (match sol with
      | Sum.inl x => x
      | Sum.inr xs => xs.headD 0) * Real.sign (refs.bank vf)

/-- C5: on every call the controller returns the first segment's optimized
bank value times the sign of the reference bank function evaluated at the
linearized end-of-horizon velocity `v + T·(D sin γ − 3.7)`, on both the
`N = 1` scalar-optimizer path and the `N > 1` vector-optimizer path. -/
theorem c5_controller_first_segment_signed (minimizeSol : List ℝ)
    (minimizeScalarSol : ℝ) (N : ℕ) (T : ℝ) (refs : Refs)
    (velocity drag fpa : ℝ) :
    controller minimizeSol minimizeScalarSol N T refs velocity drag fpa =
      (if N > 1 then minimizeSol.headD 0 else minimizeScalarSol) *
        Real.sign (refs.bank (velocity + T * (drag * sin fpa - 3.7))) := by
  by_cases h : N > 1 <;>
    simp [controller, optimize, lateral, h]

/-! ## The parametrized planner (ParametrizedPlanner.py) -/

/-- `np.radians`: degrees to radians. -/
noncomputable def radians (d : ℝ) : ℝ := d * π / 180

/-- The maximum bank rate `maxRate = np.radians(20.)` hard-coded inside
`HEPBank`, `HEPBankReduced` and `HEPBankReducedSmooth`. -/
noncomputable def maxRate : ℝ := radians 20

/-- The maximum bank acceleration `maxAcc = np.radians(5)` hard-coded
inside `HEPBankReducedSmooth`. -/
noncomputable def maxAcc : ℝ := radians 5

/-- `dt = maxRate/maxAcc` (ParametrizedPlanner.py line 44): time to go
from zero bank rate to the maximum rate. -/
noncomputable def rampDt : ℝ := maxRate / maxAcc

/-- `dbank = 0.5*(maxRate**2)/maxAcc` (line 45): angle traversed during a
full acceleration phase. -/
noncomputable def dbank : ℝ := 0.5 * maxRate ^ 2 / maxAcc

/-- The per-sample body of `HEPBank` (ParametrizedPlanner.py lines
86-120): the value appended for one time `t` in the loop, with the
branch guards exactly as in the source `if/elif` chain. -/
noncomputable def hepBankS (t1 t2 t3 minBank maxBank t : ℝ) : ℝ :=
  let ti1 := t1 + (maxBank + minBank) / maxRate
  let ti2 := t2 + 2 * maxBank / maxRate
  let ti3 := t3 + (maxBank + minBank) / maxRate
  if t < t1 ∧ 0 ≤ t then -minBank
  else if t1 ≤ t ∧ t ≤ ti1 then -minBank + maxRate * (t - t1)
  else if ti1 ≤ t ∧ t ≤ t2 then maxBank
  else if t2 ≤ t ∧ t ≤ ti2 then maxBank - maxRate * (t - t2)
  else if ti2 ≤ t ∧ t ≤ t3 then -maxBank
  else if t3 ≤ t ∧ t ≤ ti3 then -maxBank + maxRate * (t - t3)
  else minBank

/-- The per-sample body of `HEPBankReduced` (lines 9-38). -/
noncomputable def hepBankReducedS (t1 t2 minBank maxBank t : ℝ) : ℝ :=
  let ti1 := t1 + 2 * maxBank / maxRate
  let ti2 := t2 + (maxBank + minBank) / maxRate
  if t ≤ t1 then maxBank
  else if t1 ≤ t ∧ t ≤ ti1 then maxBank - maxRate * (t - t1)
  else if ti1 ≤ t ∧ t ≤ t2 then -maxBank
  else if t2 ≤ t ∧ t ≤ ti2 then -maxBank + maxRate * (t - t2)
  else minBank

/-- The per-sample body of `HEPBankReducedSmooth` (lines 41-84).  The
source's `elif` guards `t > prev` are implied by the falsity of the
earlier conditions, so only the upper bounds appear.  The flag `noMax1`
computed on lines 49-52 is never used by the source and is omitted. -/
noncomputable def hepSmoothS (t1 t2 minBank maxBank t : ℝ) : ℝ :=
  let t1a := t1 + rampDt
  let t1v := t1 + 2 * maxBank / maxRate
  let t1d := t1v + rampDt
  let t2a := t2 + rampDt
  let t2v := t2 + (minBank + maxBank) / maxRate
  let t2d := t2v + rampDt
  if t ≤ t1 then maxBank
  else if t ≤ t1a then maxBank - 0.5 * maxAcc * (t - t1) ^ 2
  else if t ≤ t1v then maxBank - dbank - maxRate * (t - t1a)
  else if t ≤ t1d then dbank - maxBank - maxRate * (t - t1v) + 0.5 * maxAcc * (t - t1v) ^ 2
  else if t ≤ t2 then -maxBank
  else if t ≤ t2a then -maxBank + 0.5 * maxAcc * (t - t2) ^ 2
  else if t ≤ t2v then dbank - maxBank + maxRate * (t - t2a)
  else if t ≤ t2d then minBank - dbank + maxRate * (t - t2v) - 0.5 * maxAcc * (t - t2v) ^ 2
  else minBank

/-- `HEPBank` (lines 86-120): accepts a scalar (`Sum.inl`) or a sequence
(`Sum.inr`); the loop appends one value per sample and the scalar case
returns `bank[0]` (the singleton list's element). -/
noncomputable def HEPBank (T : Sum ℝ (List ℝ)) (t1 t2 t3 minBank maxBank : ℝ) :
    Sum ℝ (List ℝ) :=
  match T with
  | Sum.inl x => Sum.inl (hepBankS t1 t2 t3 minBank maxBank x)
  | Sum.inr xs => Sum.inr (xs.map (hepBankS t1 t2 t3 minBank maxBank))

/-- `HEPBankReduced` (lines 9-38). -/
noncomputable def HEPBankReduced (T : Sum ℝ (List ℝ)) (t1 t2 minBank maxBank : ℝ) :
    Sum ℝ (List ℝ) :=
  match T with
  | Sum.inl x => Sum.inl (hepBankReducedS t1 t2 minBank maxBank x)
  | Sum.inr xs => Sum.inr (xs.map (hepBankReducedS t1 t2 minBank maxBank))

/-- `HEPBankReducedSmooth` (lines 41-84).  Unlike its two siblings, the
source sets `isScalar` for a scalar argument (wrapping it in `T = [T]`)
but then executes the unconditional `return bank` on line 84, so a scalar
input produces a one-element LIST, never a scalar. -/
noncomputable def HEPBankReducedSmooth (T : Sum ℝ (List ℝ))
    (t1 t2 minBank maxBank : ℝ) : Sum ℝ (List ℝ) :=
  match T with
  | Sum.inl x => Sum.inr [hepSmoothS t1 t2 minBank maxBank x]
  | Sum.inr xs => Sum.inr (xs.map (hepSmoothS t1 t2 minBank maxBank))

/-- C7: the claim says all three generators map a scalar to a scalar and
a sequence to a sequence of the same length.  This holds for `HEPBank`
and `HEPBankReduced`, but `HEPBankReducedSmooth` returns a one-element
list for a scalar input (its `isScalar` flag is computed and never used,
and the spec's contract names all three generators), so the claim is
correct and the code is in error.  This theorem records the evaluated
behaviour of all three. -/
theorem c7_scalar_sequence_contract (t1 t2 t3 mB MB x : ℝ) (xs : List ℝ) :
    (HEPBank (Sum.inl x) t1 t2 t3 mB MB =
        Sum.inl (hepBankS t1 t2 t3 mB MB x) ∧
      ∃ ys, HEPBank (Sum.inr xs) t1 t2 t3 mB MB = Sum.inr ys ∧
        ys.length = xs.length) ∧
    (HEPBankReduced (Sum.inl x) t1 t2 mB MB =
        Sum.inl (hepBankReducedS t1 t2 mB MB x) ∧
      ∃ ys, HEPBankReduced (Sum.inr xs) t1 t2 mB MB = Sum.inr ys ∧
        ys.length = xs.length) ∧
    HEPBankReducedSmooth (Sum.inl x) t1 t2 mB MB =
      Sum.inr [hepSmoothS t1 t2 mB MB x] := by
  refine ⟨⟨rfl, ⟨_, rfl, ?_⟩⟩, ⟨rfl, ⟨_, rfl, ?_⟩⟩, rfl⟩ <;>
    exact List.length_map xs _

/-! ## Feasibility penalty (lines 122-129), claim C4 -/

/-- The local `cost` of `checkFeasibility`: `sig = sign*np.diff(T)`,
`cost = (sum(sig+np.abs(sig)) + sum(abs(T)-T))*1e5`. -/
noncomputable def cfCost (T : ℝ × ℝ × ℝ) (sgn : ℝ) : ℝ :=
  let sig1 := sgn * (T.2.1 - T.1)
  let sig2 := sgn * (T.2.2 - T.2.1)
  ((sig1 + |sig1|) + (sig2 + |sig2|) +
    ((|T.1| - T.1) + (|T.2.1| - T.2.1) + (|T.2.2| - T.2.2))) * 1e5

/-- `checkFeasibility` (lines 122-129): returns `max(cost, 1e7)` when the
cost is nonzero (Python's `if cost:`) and `0` otherwise. -/
noncomputable def checkFeasibility (T : ℝ × ℝ × ℝ) (sgn : ℝ) : ℝ :=
  if cfCost T sgn ≠ 0 then max (cfCost T sgn) 1e7 else 0

/-- With the default sign convention, the raw cost vanishes exactly when
the switch times are non-negative and (non-strictly) ascending. -/
theorem cfCost_eq_zero_iff (t1 t2 t3 : ℝ) :
    cfCost (t1, t2, t3) (-1) = 0 ↔ 0 ≤ t1 ∧ t1 ≤ t2 ∧ t2 ≤ t3 := by
  have h5 : (1e5 : ℝ) ≠ 0 := by norm_num
  unfold cfCost
  rw [mul_eq_zero]
  simp only [h5, or_false]
  rcases abs_cases (-1 * (t2 - t1)) with h1 | h1 <;>
    rcases abs_cases (-1 * (t3 - t2)) with h2 | h2 <;>
    rcases abs_cases t1 with h3 | h3 <;>
    rcases abs_cases t2 with h4 | h4 <;>
    rcases abs_cases t3 with h6 | h6 <;>
    rw [h1.1, h2.1, h3.1, h4.1, h6.1] <;>
    constructor <;>
    intro h <;>
    first
      | (refine ⟨?_, ?_, ?_⟩ <;>
          linarith [h1.2, h2.2, h3.2, h4.2, h6.2])
      | (obtain ⟨ha, hb, hc⟩ := h
         linarith [h1.2, h2.2, h3.2, h4.2, h6.2])

/-- A nonzero feasibility penalty is at least `1e7`. -/
theorem checkFeasibility_ge_of_ne (T : ℝ × ℝ × ℝ)
    (h : checkFeasibility T (-1) ≠ 0) : 1e7 ≤ checkFeasibility T (-1) := by
  unfold checkFeasibility at h ⊢
  by_cases hc : cfCost T (-1) = 0
  · simp [hc] at h
  · simp only [hc, ne_eq, not_false_iff, if_true]
    exact le_max_right _ _

/-- The returned penalty vanishes exactly when the raw cost does. -/
theorem checkFeasibility_eq_zero_iff (t1 t2 t3 : ℝ) :
    checkFeasibility (t1, t2, t3) (-1) = 0 ↔ 0 ≤ t1 ∧ t1 ≤ t2 ∧ t2 ≤ t3 := by
  unfold checkFeasibility
  by_cases hc : cfCost (t1, t2, t3) (-1) = 0
  · simp only [hc, ne_eq, not_true, if_false]
    simp [← cfCost_eq_zero_iff t1 t2 t3, hc]
  · simp only [hc, ne_eq, not_false_iff, if_true]
    constructor
    · intro h
      exfalso
      have := le_max_right (cfCost (t1, t2, t3) (-1)) (1e7 : ℝ)
      rw [h] at this
      norm_num at this
    · intro h
      exact absurd ((cfCost_eq_zero_iff t1 t2 t3).mpr h) hc

/-- C4 counterexample: the claim states the penalty is zero exactly for
STRICTLY ascending times and strictly positive for every other input.
The tied times `(1, 1, 2)` are not strictly ascending, yet the penalty is
exactly `0`. -/
theorem c4_counterexample :
    checkFeasibility (1, 1, 2) (-1) = 0 ∧ ¬((1 : ℝ) < 1 ∧ (1 : ℝ) < 2) := by
  constructor
  · exact (checkFeasibility_eq_zero_iff 1 1 2).mpr (by norm_num)
  · norm_num

/-- C4 amended: with the default sign convention, `checkFeasibility`
returns exactly `0` when the times are non-negative and ascending with
ties allowed (`t1 ≤ t2 ≤ t3`), and returns a strictly positive value of
at least `10^7` (the raw violation cost clamped from below) for every
other input. -/
theorem c4_feasibility_amended (t1 t2 t3 : ℝ) :
    (checkFeasibility (t1, t2, t3) (-1) = 0 ↔ 0 ≤ t1 ∧ t1 ≤ t2 ∧ t2 ≤ t3) ∧
    (¬(0 ≤ t1 ∧ t1 ≤ t2 ∧ t2 ≤ t3) →
      1e7 ≤ checkFeasibility (t1, t2, t3) (-1)) := by
  refine ⟨checkFeasibility_eq_zero_iff t1 t2 t3, fun h => ?_⟩
  exact checkFeasibility_ge_of_ne _
    (fun h0 => h ((checkFeasibility_eq_zero_iff t1 t2 t3).mp h0))

theorem c4_feasibility_amended_witness :
    ¬(0 ≤ (1 : ℝ) ∧ (1 : ℝ) ≤ 0 ∧ (0 : ℝ) ≤ 2) ∧
    1e7 ≤ checkFeasibility (1, 0, 2) (-1) :=
  ⟨by norm_num, (c4_feasibility_amended 1 0 2).2 (by norm_num)⟩

/-! ## HEPCost (lines 131-154), claim C6 -/

/-- The altitude weight `Wh = 0.8*1e-6` (line 151). -/
noncomputable def Wh : ℝ := 0.8 * 1e-6

/-- `HEPCost` (lines 131-154).  The trajectory machinery between the
feasibility gate and the terminal cost (odeint over the entry dynamics,
`findTriggerPoint`, `entry.altitude`, `planet.range` — all external
collaborators per the spec) is abstracted as `traj`, mapping switch times
to the triple (altitude-at-trigger [km], downrange, crossrange); `check`
is the feasibility-penalty argument. -/
noncomputable def HEPCost (check : ℝ × ℝ × ℝ → ℝ)
    (traj : ℝ × ℝ × ℝ → ℝ × ℝ × ℝ) (targetDR targetCR : ℝ)
    (T : ℝ × ℝ × ℝ) : ℝ :=
  let J := check T
  if J > 300 then J
  else
    let h := (traj T).1
    let dr := (traj T).2.1
    let cr := (traj T).2.2;
    -h * Wh + ((targetDR - dr) ^ 2 + (targetCR - cr) ^ 2) ^ (0.5 : ℝ)

/-- C6: whenever the default feasibility check returns a nonzero penalty,
`HEPCost` returns that penalty without consulting the trajectory (the
result is identical for any two trajectory evaluators); for a feasible
vector it returns the terminal cost
`−Wh·h + sqrt((DR−dr)² + (CR−cr)²)`. -/
theorem c6_hepcost_shortcircuit (T : ℝ × ℝ × ℝ)
    (traj traj' : ℝ × ℝ × ℝ → ℝ × ℝ × ℝ) (DR CR : ℝ) :
    (checkFeasibility T (-1) ≠ 0 →
      HEPCost (fun S => checkFeasibility S (-1)) traj DR CR T =
          checkFeasibility T (-1) ∧
        HEPCost (fun S => checkFeasibility S (-1)) traj DR CR T =
          HEPCost (fun S => checkFeasibility S (-1)) traj' DR CR T) ∧
    (checkFeasibility T (-1) = 0 →
      HEPCost (fun S => checkFeasibility S (-1)) traj DR CR T =
        -(traj T).1 * Wh +
          Real.sqrt ((DR - (traj T).2.1) ^ 2 + (CR - (traj T).2.2) ^ 2)) := by
  constructor
  · intro h
    have hge : (1e7 : ℝ) ≤ checkFeasibility T (-1) := checkFeasibility_ge_of_ne T h
    have hgt : checkFeasibility T (-1) > 300 := by nlinarith
    constructor
    · simp only [HEPCost]
      rw [if_pos hgt]
    · simp only [HEPCost]
      rw [if_pos hgt, if_pos hgt]
  · intro h
    have hngt : ¬ checkFeasibility T (-1) > 300 := by rw [h]; norm_num
    have half : (0.5 : ℝ) = 1 / 2 := by norm_num
    simp only [HEPCost]
    rw [if_neg hngt, Real.sqrt_eq_rpow, half]

theorem c6_hepcost_shortcircuit_witness :
    (checkFeasibility (1, 0, 0) (-1) ≠ 0 ∧
      HEPCost (fun S => checkFeasibility S (-1)) (fun _ => (1, 2, 3)) 4 5 (1, 0, 0) =
        checkFeasibility (1, 0, 0) (-1)) ∧
    (checkFeasibility (0, 1, 2) (-1) = 0 ∧
      HEPCost (fun S => checkFeasibility S (-1)) (fun _ => (1, 2, 3)) 4 5 (0, 1, 2) =
        -(1 : ℝ) * Wh + Real.sqrt ((4 - 2 : ℝ) ^ 2 + (5 - 3 : ℝ) ^ 2)) := by
  have hne : checkFeasibility (1, 0, 0) (-1) ≠ 0 := by
    intro h0
    have := (checkFeasibility_eq_zero_iff 1 0 0).mp h0
    norm_num at this
  have hz : checkFeasibility (0, 1, 2) (-1) = 0 :=
    (checkFeasibility_eq_zero_iff 0 1 2).mpr (by norm_num)
  exact ⟨⟨hne, ((c6_hepcost_shortcircuit (1, 0, 0) (fun _ => (1, 2, 3))
      (fun _ => (1, 2, 3)) 4 5).1 hne).1⟩,
    ⟨hz, (c6_hepcost_shortcircuit (0, 1, 2) (fun _ => (1, 2, 3))
      (fun _ => (1, 2, 3)) 4 5).2 hz⟩⟩

/-! ## Claim C8: magnitude / rate / acceleration limits of the profiles -/

theorem maxRate_pos : 0 < maxRate := by
  unfold maxRate radians
  positivity

theorem maxAcc_pos : 0 < maxAcc := by
  unfold maxAcc radians
  positivity

theorem rampDt_pos : 0 < rampDt :=
  div_pos maxRate_pos maxAcc_pos

theorem maxRate_eq : maxRate = maxAcc * rampDt := by
  have h : maxAcc ≠ 0 := ne_of_gt maxAcc_pos
  unfold rampDt
  field_simp

theorem dbank_eq : dbank = 0.5 * maxAcc * rampDt ^ 2 := by
  have h : maxAcc ≠ 0 := ne_of_gt maxAcc_pos
  unfold dbank rampDt
  field_simp
  ring

/-- A saturated linear ramp: `0` below the window `[0, δ]`, the identity
inside it, `δ` above it.  `maxRate * LG δ (t − a)` is one rate-limited
transition of the rectangular bank profiles. -/
noncomputable def LG (δ y : ℝ) : ℝ :=
  if y ≤ 0 then 0 else if y ≤ δ then y else δ

theorem LG_of_nonpos {δ y : ℝ} (h : y ≤ 0) : LG δ y = 0 := if_pos h

theorem LG_mid {δ y : ℝ} (h0 : 0 ≤ y) (h1 : y ≤ δ) : LG δ y = y := by
  unfold LG
  split_ifs with ha
  · linarith
  · rfl

theorem LG_of_ge {δ y : ℝ} (hδ : 0 ≤ δ) (h : δ ≤ y) : LG δ y = δ := by
  unfold LG
  split_ifs with ha hb
  · linarith
  · linarith
  · rfl

theorem LG_nonneg {δ y : ℝ} (hδ : 0 ≤ δ) : 0 ≤ LG δ y := by
  unfold LG
  split_ifs <;> linarith

theorem LG_le_delta {δ y : ℝ} (hδ : 0 ≤ δ) : LG δ y ≤ δ := by
  unfold LG
  split_ifs <;> linarith

theorem LG_le_self {δ y : ℝ} (h0 : 0 ≤ y) : LG δ y ≤ y := by
  unfold LG
  split_ifs <;> linarith

theorem LG_incr {δ s t : ℝ} (hδ : 0 ≤ δ) (hst : s ≤ t) :
    0 ≤ LG δ t - LG δ s ∧ LG δ t - LG δ s ≤ t - s := by
  unfold LG
  split_ifs <;> constructor <;> linarith

/-- Two saturated ramps whose windows are disjoint (`a1 + δ1 ≤ a2`) have a
combined increment of at most the elapsed time. -/
theorem LG_two_ramp {δ1 δ2 a1 a2 s t : ℝ} (hδ1 : 0 ≤ δ1) (hδ2 : 0 ≤ δ2)
    (hb : a1 + δ1 ≤ a2) (hst : s ≤ t) :
    (LG δ1 (t - a1) - LG δ1 (s - a1)) + (LG δ2 (t - a2) - LG δ2 (s - a2)) ≤
      t - s := by
  rcases le_total t a2 with h2 | h2
  · rw [LG_of_nonpos (by linarith : t - a2 ≤ 0),
      LG_of_nonpos (by linarith : s - a2 ≤ 0)]
    have := (LG_incr hδ1 (by linarith : s - a1 ≤ t - a1)).2
    linarith
  · rcases le_total (a1 + δ1) s with h1 | h1
    · rw [LG_of_ge hδ1 (by linarith : δ1 ≤ t - a1),
        LG_of_ge hδ1 (by linarith : δ1 ≤ s - a1)]
      have := (LG_incr hδ2 (by linarith : s - a2 ≤ t - a2)).2
      linarith
    · have hu1 : LG δ1 (t - a1) ≤ δ1 := LG_le_delta hδ1
      have hu2 : LG δ2 (t - a2) ≤ t - a2 := LG_le_self (by linarith)
      have hl2 : 0 ≤ LG δ2 (s - a2) := LG_nonneg hδ2
      rcases le_total s a1 with h3 | h3
      · have hl1 : 0 ≤ LG δ1 (s - a1) := LG_nonneg hδ1
        linarith
      · have hl1 : LG δ1 (s - a1) = s - a1 :=
          LG_mid (by linarith) (by linarith)
        linarith

/-- Closed form of the `HEPBank` sample (lines 86-120) for non-negative
times when the switch times are separated by at least the ramp durations:
a baseline `−minBank` plus three saturated maximum-rate ramps. -/
theorem hepBankS_closed (mB MB t1 t2 t3 t : ℝ) (hmB : 0 ≤ mB) (hMB : mB ≤ MB)
    (ht1 : 0 ≤ t1) (h12 : t1 + (MB + mB) / maxRate ≤ t2)
    (h23 : t2 + 2 * MB / maxRate ≤ t3) (ht : 0 ≤ t) :
    hepBankS t1 t2 t3 mB MB t =
      -mB + maxRate * (LG ((MB + mB) / maxRate) (t - t1)
        - LG (2 * MB / maxRate) (t - t2)
        + LG ((MB + mB) / maxRate) (t - t3)) := by
  have hR := maxRate_pos
  have hRne : maxRate ≠ 0 := ne_of_gt hR
  have hδ1 : 0 ≤ (MB + mB) / maxRate := div_nonneg (by linarith) hR.le
  have hδ2 : 0 ≤ 2 * MB / maxRate := div_nonneg (by linarith) hR.le
  have hfull1 : maxRate * ((MB + mB) / maxRate) = MB + mB := by field_simp
  have hfull2 : maxRate * (2 * MB / maxRate) = 2 * MB := by field_simp
  simp only [hepBankS]
  split_ifs with g1 g2 g3 g4 g5 g6
  · rw [LG_of_nonpos (by linarith [g1.1] : t - t1 ≤ 0),
      LG_of_nonpos (by linarith [g1.1] : t - t2 ≤ 0),
      LG_of_nonpos (by linarith [g1.1] : t - t3 ≤ 0)]
    ring
  · rw [LG_mid (by linarith [g2.1] : 0 ≤ t - t1) (by linarith [g2.2] : t - t1 ≤ (MB + mB) / maxRate),
      LG_of_nonpos (by linarith [g2.2] : t - t2 ≤ 0),
      LG_of_nonpos (by linarith [g2.2] : t - t3 ≤ 0)]
    ring
  · rw [LG_of_ge hδ1 (by linarith [g3.1] : (MB + mB) / maxRate ≤ t - t1),
      LG_of_nonpos (by linarith [g3.2] : t - t2 ≤ 0),
      LG_of_nonpos (by linarith [g3.2] : t - t3 ≤ 0)]
    linarith
  · rw [LG_of_ge hδ1 (by linarith [g4.1] : (MB + mB) / maxRate ≤ t - t1),
      LG_mid (by linarith [g4.1] : 0 ≤ t - t2) (by linarith [g4.2] : t - t2 ≤ 2 * MB / maxRate),
      LG_of_nonpos (by linarith [g4.2] : t - t3 ≤ 0)]
    linarith
  · rw [LG_of_ge hδ1 (by linarith [g5.1] : (MB + mB) / maxRate ≤ t - t1),
      LG_of_ge hδ2 (by linarith [g5.1] : 2 * MB / maxRate ≤ t - t2),
      LG_of_nonpos (by linarith [g5.2] : t - t3 ≤ 0)]
    linarith
  · rw [LG_of_ge hδ1 (by linarith [g6.1] : (MB + mB) / maxRate ≤ t - t1),
      LG_of_ge hδ2 (by linarith [g6.1] : 2 * MB / maxRate ≤ t - t2),
      LG_mid (by linarith [g6.1] : 0 ≤ t - t3) (by linarith [g6.2] : t - t3 ≤ (MB + mB) / maxRate)]
    linarith
  · push_neg at g1 g2 g3 g4 g5 g6
    have ha : t1 ≤ t := by
      by_contra hc
      exact absurd ht (by simpa using (g1 (by linarith)))
    have hb : t1 + (MB + mB) / maxRate < t := g2 ha
    have hc : t2 < t := g3 hb.le
    have hd : t2 + 2 * MB / maxRate < t := g4 hc.le
    have he : t3 < t := g5 hd.le
    have hf : t3 + (MB + mB) / maxRate < t := g6 he.le
    rw [LG_of_ge hδ1 (by linarith : (MB + mB) / maxRate ≤ t - t1),
      LG_of_ge hδ2 (by linarith : 2 * MB / maxRate ≤ t - t2),
      LG_of_ge hδ1 (by linarith : (MB + mB) / maxRate ≤ t - t3)]
    linarith

/-- The rectangular profile's samples never exceed `maxBank` in magnitude
(each branch value is bounded by its guard). -/
theorem hepBankS_abs_le (mB MB t1 t2 t3 t : ℝ) (hmB : 0 ≤ mB)
    (hMB : mB ≤ MB) : |hepBankS t1 t2 t3 mB MB t| ≤ MB := by
  have hR := maxRate_pos
  have hfull1 : maxRate * ((MB + mB) / maxRate) = MB + mB := by
    field_simp
  have hfull2 : maxRate * (2 * MB / maxRate) = 2 * MB := by
    field_simp
  simp only [hepBankS]
  split_ifs with g1 g2 g3 g4 g5 g6
  · rw [abs_le]; constructor <;> linarith
  · have hlo : 0 ≤ maxRate * (t - t1) :=
      mul_nonneg hR.le (by linarith [g2.1])
    have hhi : maxRate * (t - t1) ≤ maxRate * ((MB + mB) / maxRate) :=
      mul_le_mul_of_nonneg_left (by linarith [g2.2]) hR.le
    rw [hfull1] at hhi
    rw [abs_le]; constructor <;> linarith
  · rw [abs_le]; constructor <;> linarith
  · have hlo : 0 ≤ maxRate * (t - t2) :=
      mul_nonneg hR.le (by linarith [g4.1])
    have hhi : maxRate * (t - t2) ≤ maxRate * (2 * MB / maxRate) :=
      mul_le_mul_of_nonneg_left (by linarith [g4.2]) hR.le
    rw [hfull2] at hhi
    rw [abs_le]; constructor <;> linarith
  · rw [abs_le]; constructor <;> linarith
  · have hlo : 0 ≤ maxRate * (t - t3) :=
      mul_nonneg hR.le (by linarith [g6.1])
    have hhi : maxRate * (t - t3) ≤ maxRate * ((MB + mB) / maxRate) :=
      mul_le_mul_of_nonneg_left (by linarith [g6.2]) hR.le
    rw [hfull1] at hhi
    rw [abs_le]; constructor <;> linarith
  · rw [abs_le]; constructor <;> linarith

/-- The rectangular profile is `maxRate`-Lipschitz over non-negative times
when the switch times are separated by the ramp durations. -/
theorem hepBankS_rate (mB MB t1 t2 t3 : ℝ) (hmB : 0 ≤ mB) (hMB : mB ≤ MB)
    (ht1 : 0 ≤ t1) (h12 : t1 + (MB + mB) / maxRate ≤ t2)
    (h23 : t2 + 2 * MB / maxRate ≤ t3) {s t : ℝ} (hs : 0 ≤ s) (hst : s ≤ t) :
    |hepBankS t1 t2 t3 mB MB t - hepBankS t1 t2 t3 mB MB s| ≤
      maxRate * (t - s) := by
  have hR := maxRate_pos
  have hδ1 : 0 ≤ (MB + mB) / maxRate := div_nonneg (by linarith) hR.le
  have hδ2 : 0 ≤ 2 * MB / maxRate := div_nonneg (by linarith) hR.le
  have e1 : hepBankS t1 t2 t3 mB MB t - hepBankS t1 t2 t3 mB MB s =
      maxRate * ((LG ((MB + mB) / maxRate) (t - t1) - LG ((MB + mB) / maxRate) (s - t1))
        - (LG (2 * MB / maxRate) (t - t2) - LG (2 * MB / maxRate) (s - t2))
        + (LG ((MB + mB) / maxRate) (t - t3) - LG ((MB + mB) / maxRate) (s - t3))) := by
    rw [hepBankS_closed mB MB t1 t2 t3 t hmB hMB ht1 h12 h23 (le_trans hs hst),
      hepBankS_closed mB MB t1 t2 t3 s hmB hMB ht1 h12 h23 hs]
    ring
  have h1 := LG_incr hδ1 (show s - t1 ≤ t - t1 by linarith)
  have h2 := LG_incr hδ2 (show s - t2 ≤ t - t2 by linarith)
  have h3 := LG_incr hδ1 (show s - t3 ≤ t - t3 by linarith)
  have h13 := LG_two_ramp hδ1 hδ1 (show t1 + (MB + mB) / maxRate ≤ t3 by linarith) hst
  have habs : |(LG ((MB + mB) / maxRate) (t - t1) - LG ((MB + mB) / maxRate) (s - t1))
      - (LG (2 * MB / maxRate) (t - t2) - LG (2 * MB / maxRate) (s - t2))
      + (LG ((MB + mB) / maxRate) (t - t3) - LG ((MB + mB) / maxRate) (s - t3))| ≤
      t - s := by
    rw [abs_le]
    constructor <;> linarith [h1.1, h1.2, h2.1, h2.2, h3.1, h3.2, h13]
  rw [e1, abs_mul, abs_of_pos hR]
  exact mul_le_mul_of_nonneg_left habs hR.le

/-- The quadratic ramp-up primitive: zero below `0`, a parabola of
curvature `k` on `[0, c]`, and affine of slope `k·c` above `c`.  One
acceleration-limited rate transition of the smooth profile is a
difference of two copies of `gQ`. -/
noncomputable def gQ (k c y : ℝ) : ℝ :=
  if y ≤ 0 then 0
  else if y ≤ c then 0.5 * k * y ^ 2
  else k * c * y - 0.5 * k * c ^ 2

theorem gQ_of_nonpos {k c y : ℝ} (h : y ≤ 0) : gQ k c y = 0 := if_pos h

theorem gQ_mid {k c y : ℝ} (h0 : 0 ≤ y) (h1 : y ≤ c) :
    gQ k c y = 0.5 * k * y ^ 2 := by
  unfold gQ
  split_ifs with ha
  · have : y = 0 := le_antisymm ha h0
    rw [this]; ring
  · rfl

theorem gQ_of_ge {k c y : ℝ} (hc : 0 ≤ c) (h : c ≤ y) :
    gQ k c y = k * c * y - 0.5 * k * c ^ 2 := by
  unfold gQ
  split_ifs with ha hb
  · have hc0 : c = 0 := le_antisymm (le_trans h ha) hc
    have hy0 : y = 0 := le_antisymm ha (hc0 ▸ h)
    rw [hc0, hy0]; ring
  · have : y = c := le_antisymm hb h
    rw [this]; ring
  · rfl

theorem gQ_mono {k c : ℝ} (hk : 0 ≤ k) (hc : 0 ≤ c) {s t : ℝ}
    (hst : s ≤ t) : gQ k c s ≤ gQ k c t := by
  unfold gQ
  split_ifs <;>
    nlinarith [mul_nonneg hk hc, mul_nonneg hk (sq_nonneg s),
      mul_nonneg hk (sq_nonneg t), mul_nonneg hk (sq_nonneg (t - s)),
      mul_nonneg hk (sq_nonneg (c - s)), mul_nonneg hk (sq_nonneg (t - c)),
      mul_nonneg (mul_nonneg hk hc) (sub_nonneg.mpr hst)]

theorem gQ_lip {k c : ℝ} (hk : 0 ≤ k) (hc : 0 ≤ c) {s t : ℝ}
    (hst : s ≤ t) : gQ k c t - gQ k c s ≤ k * c * (t - s) := by
  unfold gQ
  split_ifs <;>
    nlinarith [mul_nonneg hk hc, mul_nonneg hk (sq_nonneg (c - t)),
      mul_nonneg hk (sq_nonneg (c - s)), mul_nonneg hk (sq_nonneg (t - s)),
      mul_nonneg (mul_nonneg hk hc) (sub_nonneg.mpr hst),
      mul_nonneg (mul_nonneg hk hc) hc]

/-- The symmetric second difference of `gQ` is non-negative (convexity)
and at most `k·h²` (its derivative is `k`-Lipschitz). -/
theorem gQ_dd {k c : ℝ} (hk : 0 ≤ k) (hc : 0 ≤ c) {y h : ℝ} (hh : 0 ≤ h) :
    0 ≤ gQ k c (y + h) - 2 * gQ k c y + gQ k c (y - h) ∧
    gQ k c (y + h) - 2 * gQ k c y + gQ k c (y - h) ≤ k * h ^ 2 := by
  rcases le_total (y + h) 0 with hC | hC
  · -- whole stencil left of the window
    rw [gQ_of_nonpos hC, gQ_of_nonpos (by linarith : y ≤ 0),
      gQ_of_nonpos (by linarith : y - h ≤ 0)]
    constructor <;> nlinarith [mul_nonneg hk (sq_nonneg h)]
  rcases le_total y 0 with hB | hB
  · -- centre still left of the window
    rw [gQ_of_nonpos hB, gQ_of_nonpos (by linarith : y - h ≤ 0)]
    rcases le_total (y + h) c with hCc | hCc
    · rw [gQ_mid hC hCc]
      constructor
      · nlinarith [mul_nonneg hk (sq_nonneg (y + h))]
      · nlinarith [mul_nonneg (mul_nonneg hk (neg_nonneg.mpr hB))
          (show (0 : ℝ) ≤ 2 * h + y by linarith),
          mul_nonneg hk (sq_nonneg h)]
    · rw [gQ_of_ge hc hCc]
      constructor
      · nlinarith [mul_nonneg (mul_nonneg hk hc)
          (show (0 : ℝ) ≤ y + h - c by linarith),
          mul_nonneg hk (sq_nonneg c)]
      · nlinarith [mul_nonneg hk (sq_nonneg (y + h - c)),
          mul_nonneg (mul_nonneg hk (neg_nonneg.mpr hB))
            (show (0 : ℝ) ≤ 2 * h + y by linarith),
          mul_nonneg hk (sq_nonneg h)]
  rcases le_total (y - h) 0 with hA | hA
  · -- left point below the window, centre inside or above it
    rw [gQ_of_nonpos hA]
    rcases le_total y c with hBc | hBc
    · rw [gQ_mid hB hBc]
      rcases le_total (y + h) c with hCc | hCc
      · rw [gQ_mid (by linarith) hCc]
        constructor
        · nlinarith [mul_nonneg (mul_nonneg hk hB)
            (show (0 : ℝ) ≤ h - y by linarith),
            mul_nonneg hk (sq_nonneg h), mul_nonneg hk (sq_nonneg y)]
        · nlinarith [mul_nonneg hk (sq_nonneg (h - y))]
      · rw [gQ_of_ge hc hCc]
        constructor
        · nlinarith [mul_nonneg (mul_nonneg hk hB)
            (show (0 : ℝ) ≤ h - y by linarith),
            mul_nonneg (mul_nonneg hk hB) hh,
            mul_nonneg (mul_nonneg hk (show (0 : ℝ) ≤ c - y by linarith))
              (show (0 : ℝ) ≤ h - (c - y) by linarith),
            mul_nonneg (mul_nonneg hk (show (0 : ℝ) ≤ c - y by linarith)) hh]
        · nlinarith [mul_nonneg hk (sq_nonneg (h - y)),
            mul_nonneg hk (sq_nonneg (h - c + y))]
    · rw [gQ_of_ge hc hBc, gQ_of_ge hc (by linarith : c ≤ y + h)]
      constructor
      · nlinarith [mul_nonneg (mul_nonneg hk hc)
          (show (0 : ℝ) ≤ h - y by linarith),
          mul_nonneg hk (sq_nonneg c)]
      · nlinarith [mul_nonneg (mul_nonneg hk (show (0 : ℝ) ≤ y - c by linarith))
          (show (0 : ℝ) ≤ h - y by linarith),
          mul_nonneg (mul_nonneg hk (show (0 : ℝ) ≤ y - c by linarith))
            (show (0 : ℝ) ≤ y + c by linarith),
          mul_nonneg hk (sq_nonneg (h - y)), mul_nonneg hk (sq_nonneg h)]
  · -- whole stencil right of zero
    rcases le_total y c with hBc | hBc
    · rw [gQ_mid hB hBc, gQ_mid (by linarith) (by linarith : y - h ≤ c)]
      rcases le_total (y + h) c with hCc | hCc
      · rw [gQ_mid (by linarith) hCc]
        constructor <;> nlinarith [mul_nonneg hk (sq_nonneg h)]
      · rw [gQ_of_ge hc hCc]
        constructor
        · nlinarith [mul_nonneg (mul_nonneg hk (show (0 : ℝ) ≤ c - y by linarith))
            (show (0 : ℝ) ≤ h - (c - y) by linarith),
            mul_nonneg (mul_nonneg hk (show (0 : ℝ) ≤ c - y by linarith)) hh,
            mul_nonneg hk (sq_nonneg h)]
        · nlinarith [mul_nonneg hk (sq_nonneg (h - c + y))]
    · rw [gQ_of_ge hc hBc, gQ_of_ge hc (by linarith : c ≤ y + h)]
      rcases le_total (y - h) c with hAc | hAc
      · rw [gQ_mid hA hAc]
        constructor
        · nlinarith [mul_nonneg hk (sq_nonneg (c - (y - h)))]
        · nlinarith [mul_nonneg (mul_nonneg hk (show (0 : ℝ) ≤ y - c by linarith))
            (show (0 : ℝ) ≤ c - y + 2 * h by linarith),
            mul_nonneg hk (sq_nonneg h)]
      · rw [gQ_of_ge hc hAc]
        constructor <;> nlinarith [mul_nonneg hk (sq_nonneg h)]

/-- Outside and left of the curvature window the second difference of
`gQ` vanishes. -/
theorem gQ_dd_left {k c y h : ℝ} (hh : 0 ≤ h) (hy : y + h ≤ 0) :
    gQ k c (y + h) - 2 * gQ k c y + gQ k c (y - h) = 0 := by
  rw [gQ_of_nonpos hy, gQ_of_nonpos (by linarith : y ≤ 0),
    gQ_of_nonpos (by linarith : y - h ≤ 0)]
  ring

/-- Outside and right of the curvature window `gQ` is affine, so its
second difference vanishes. -/
theorem gQ_dd_right {k c y h : ℝ} (hc : 0 ≤ c) (hh : 0 ≤ h)
    (hy : c ≤ y - h) :
    gQ k c (y + h) - 2 * gQ k c y + gQ k c (y - h) = 0 := by
  rw [gQ_of_ge hc (by linarith : c ≤ y + h), gQ_of_ge hc (by linarith : c ≤ y),
    gQ_of_ge hc hy]
  ring

/-- Lower secant bound for `gQ`: the slope of any chord is at least the
slope `k · LG c` at its left endpoint. -/
theorem gQ_incr_ge {k c : ℝ} (hk : 0 ≤ k) (hc : 0 ≤ c) {s t : ℝ}
    (hst : s ≤ t) : k * LG c s * (t - s) ≤ gQ k c t - gQ k c s := by
  unfold gQ LG
  split_ifs <;>
    nlinarith [mul_nonneg hk (sq_nonneg (t - s)), mul_nonneg hk (sq_nonneg (c - s)),
      mul_nonneg hk (sq_nonneg (c - t)), mul_nonneg hk hc,
      mul_nonneg hk (sq_nonneg s), mul_nonneg hk (sq_nonneg t)]

/-- Upper secant bound for `gQ`: the slope of any chord is at most the
slope `k · LG c` at its right endpoint. -/
theorem gQ_incr_le {k c : ℝ} (hk : 0 ≤ k) (hc : 0 ≤ c) {s t : ℝ}
    (hst : s ≤ t) : gQ k c t - gQ k c s ≤ k * LG c t * (t - s) := by
  unfold gQ LG
  split_ifs <;>
    nlinarith [mul_nonneg hk (sq_nonneg (t - s)), mul_nonneg hk (sq_nonneg (c - s)),
      mul_nonneg hk (sq_nonneg (c - t)), mul_nonneg hk hc,
      mul_nonneg hk (sq_nonneg s), mul_nonneg hk (sq_nonneg t)]

/-- Shift-convexity of `gQ`: an increment over a left-shifted interval
never exceeds the increment over the interval itself. -/
theorem gQ_shift {k c δ : ℝ} (hk : 0 ≤ k) (hc : 0 ≤ c) (hδ : 0 ≤ δ)
    {s t : ℝ} (hst : s ≤ t) :
    gQ k c (t - δ) - gQ k c (s - δ) ≤ gQ k c t - gQ k c s := by
  rcases le_total (t - δ) s with hcase | hcase
  · have h1 := gQ_incr_le hk hc (show s - δ ≤ t - δ by linarith)
    have h2 := gQ_incr_ge hk hc hst
    have h3 := (LG_incr hc hcase).1
    have e1 : t - δ - (s - δ) = t - s := by ring
    rw [e1] at h1
    have h4 : k * LG c (t - δ) * (t - s) ≤ k * LG c s * (t - s) := by
      have := mul_nonneg (mul_nonneg hk h3) (show (0 : ℝ) ≤ t - s by linarith)
      nlinarith
    linarith
  · have h1 := gQ_incr_ge hk hc (show t - δ ≤ t by linarith)
    have h2 := gQ_incr_le hk hc (show s - δ ≤ s by linarith)
    have h3 := (LG_incr hc hcase).1
    have e1 : t - (t - δ) = δ := by ring
    have e2 : s - (s - δ) = δ := by ring
    rw [e1] at h1
    rw [e2] at h2
    have h4 : k * LG c s * δ ≤ k * LG c (t - δ) * δ := by
      have := mul_nonneg (mul_nonneg hk h3) hδ
      nlinarith
    linarith

set_option maxHeartbeats 1000000 in
/-- Closed form of the smooth profile sample (lines 41-84) when the
switch times are separated (`t1d ≤ t2`) and each S-curve transition can
reach its maximum-rate phase: a baseline `maxBank` minus one full
S-transition of height `2·maxBank` plus one of height `minBank+maxBank`,
each expressed as a difference of two quadratic ramps `gQ`. -/
theorem hepSmoothS_closed (mB MB t1 t2 t : ℝ) (hmB : 0 ≤ mB)
    (hMB : mB ≤ MB) (h1 : rampDt ≤ 2 * MB / maxRate)
    (h2 : rampDt ≤ (mB + MB) / maxRate)
    (hsep : t1 + 2 * MB / maxRate + rampDt ≤ t2) :
    hepSmoothS t1 t2 mB MB t =
      MB - (gQ maxAcc rampDt (t - t1)
              - gQ maxAcc rampDt (t - (t1 + 2 * MB / maxRate)))
        + (gQ maxAcc rampDt (t - t2)
              - gQ maxAcc rampDt (t - (t2 + (mB + MB) / maxRate))) := by
  have hA := maxAcc_pos
  have hC := rampDt_pos
  have hR := maxRate_pos
  have hAne : maxAcc ≠ 0 := ne_of_gt hA
  have hCne : rampDt ≠ 0 := ne_of_gt hC
  have h2MB : 0 ≤ 2 * MB / maxRate := div_nonneg (by linarith) hR.le
  have hmm : 0 ≤ (mB + MB) / maxRate := div_nonneg (by linarith) hR.le
  have hRne : maxRate ≠ 0 := ne_of_gt hR
  have hF1 : maxAcc * rampDt * (2 * MB / maxRate) = 2 * MB := by
    rw [← maxRate_eq]; field_simp
  have hF2 : maxAcc * rampDt * ((mB + MB) / maxRate) = mB + MB := by
    rw [← maxRate_eq]; field_simp
  simp only [hepSmoothS]
  split_ifs with g1 g2 g3 g4 g5 g6 g7 g8
  · rw [gQ_of_nonpos (show t - t1 ≤ 0 by linarith),
      gQ_of_nonpos (show t - (t1 + 2 * MB / maxRate) ≤ 0 by linarith),
      gQ_of_nonpos (show t - t2 ≤ 0 by linarith),
      gQ_of_nonpos (show t - (t2 + (mB + MB) / maxRate) ≤ 0 by linarith)]
    ring
  · rw [gQ_mid (show 0 ≤ t - t1 by linarith) (show t - t1 ≤ rampDt by linarith),
      gQ_of_nonpos (show t - (t1 + 2 * MB / maxRate) ≤ 0 by linarith),
      gQ_of_nonpos (show t - t2 ≤ 0 by linarith),
      gQ_of_nonpos (show t - (t2 + (mB + MB) / maxRate) ≤ 0 by linarith)]
    ring
  · rw [gQ_of_ge hC.le (show rampDt ≤ t - t1 by linarith),
      gQ_of_nonpos (show t - (t1 + 2 * MB / maxRate) ≤ 0 by linarith),
      gQ_of_nonpos (show t - t2 ≤ 0 by linarith),
      gQ_of_nonpos (show t - (t2 + (mB + MB) / maxRate) ≤ 0 by linarith)]
    linear_combination (-1 : ℝ) * dbank_eq - (t - t1 - rampDt) * maxRate_eq
  · rw [gQ_of_ge hC.le (show rampDt ≤ t - t1 by linarith),
      gQ_mid (show 0 ≤ t - (t1 + 2 * MB / maxRate) by linarith)
        (show t - (t1 + 2 * MB / maxRate) ≤ rampDt by linarith),
      gQ_of_nonpos (show t - t2 ≤ 0 by linarith),
      gQ_of_nonpos (show t - (t2 + (mB + MB) / maxRate) ≤ 0 by linarith)]
    linear_combination dbank_eq - (t - t1 - 2 * MB / maxRate) * maxRate_eq + hF1
  · rw [gQ_of_ge hC.le (show rampDt ≤ t - t1 by linarith),
      gQ_of_ge hC.le (show rampDt ≤ t - (t1 + 2 * MB / maxRate) by linarith),
      gQ_of_nonpos (show t - t2 ≤ 0 by linarith),
      gQ_of_nonpos (show t - (t2 + (mB + MB) / maxRate) ≤ 0 by linarith)]
    linear_combination hF1
  · rw [gQ_of_ge hC.le (show rampDt ≤ t - t1 by linarith),
      gQ_of_ge hC.le (show rampDt ≤ t - (t1 + 2 * MB / maxRate) by linarith),
      gQ_mid (show 0 ≤ t - t2 by linarith) (show t - t2 ≤ rampDt by linarith),
      gQ_of_nonpos (show t - (t2 + (mB + MB) / maxRate) ≤ 0 by linarith)]
    linear_combination hF1
  · rw [gQ_of_ge hC.le (show rampDt ≤ t - t1 by linarith),
      gQ_of_ge hC.le (show rampDt ≤ t - (t1 + 2 * MB / maxRate) by linarith),
      gQ_of_ge hC.le (show rampDt ≤ t - t2 by linarith),
      gQ_of_nonpos (show t - (t2 + (mB + MB) / maxRate) ≤ 0 by linarith)]
    linear_combination dbank_eq + hF1 + (t - t2 - rampDt) * maxRate_eq
  · rw [gQ_of_ge hC.le (show rampDt ≤ t - t1 by linarith),
      gQ_of_ge hC.le (show rampDt ≤ t - (t1 + 2 * MB / maxRate) by linarith),
      gQ_of_ge hC.le (show rampDt ≤ t - t2 by linarith),
      gQ_mid (show 0 ≤ t - (t2 + (mB + MB) / maxRate) by linarith)
        (show t - (t2 + (mB + MB) / maxRate) ≤ rampDt by linarith)]
    linear_combination hF1 - hF2 + (t - t2 - (mB + MB) / maxRate) * maxRate_eq
      - dbank_eq
  · rw [gQ_of_ge hC.le (show rampDt ≤ t - t1 by linarith),
      gQ_of_ge hC.le (show rampDt ≤ t - (t1 + 2 * MB / maxRate) by linarith),
      gQ_of_ge hC.le (show rampDt ≤ t - t2 by linarith),
      gQ_of_ge hC.le (show rampDt ≤ t - (t2 + (mB + MB) / maxRate) by linarith)]
    linear_combination hF1 - hF2


set_option maxHeartbeats 1600000 in
/-- The smooth profile's samples never exceed `maxBank` in magnitude. -/
theorem hepSmoothS_abs_le (mB MB t1 t2 x : ℝ) (hmB : 0 ≤ mB)
    (hMB : mB ≤ MB) (h1 : rampDt ≤ 2 * MB / maxRate)
    (h2 : rampDt ≤ (mB + MB) / maxRate)
    (hsep : t1 + 2 * MB / maxRate + rampDt ≤ t2) :
    |hepSmoothS t1 t2 mB MB x| ≤ MB := by
  have hA := maxAcc_pos
  have hC := rampDt_pos
  have hR := maxRate_pos
  have hRne : maxRate ≠ 0 := ne_of_gt hR
  have hq1 : 0 ≤ 2 * MB / maxRate := div_nonneg (by linarith) hR.le
  have hq2 : 0 ≤ (mB + MB) / maxRate := div_nonneg (by linarith) hR.le
  have hF1 : maxAcc * rampDt * (2 * MB / maxRate) = 2 * MB := by
    rw [← maxRate_eq]; field_simp
  have hF2 : maxAcc * rampDt * ((mB + MB) / maxRate) = mB + MB := by
    rw [← maxRate_eq]; field_simp
  rw [hepSmoothS_closed mB MB t1 t2 x hmB hMB h1 h2 hsep]
  have hS1lo : gQ maxAcc rampDt (x - (t1 + 2 * MB / maxRate)) ≤
      gQ maxAcc rampDt (x - t1) :=
    gQ_mono hA.le hC.le (by linarith)
  have hS1hi := gQ_lip hA.le hC.le
    (show x - (t1 + 2 * MB / maxRate) ≤ x - t1 by linarith)
  have hS2lo : gQ maxAcc rampDt (x - (t2 + (mB + MB) / maxRate)) ≤
      gQ maxAcc rampDt (x - t2) :=
    gQ_mono hA.le hC.le (by linarith)
  have hS2hi := gQ_lip hA.le hC.le
    (show x - (t2 + (mB + MB) / maxRate) ≤ x - t2 by linarith)
  rcases le_total x t2 with hx | hx
  · rw [gQ_of_nonpos (show x - t2 ≤ 0 by linarith),
      gQ_of_nonpos (show x - (t2 + (mB + MB) / maxRate) ≤ 0 by linarith)]
    rw [abs_le]
    constructor <;> nlinarith [hS1lo, hS1hi, hF1]
  · rw [gQ_of_ge hC.le (show rampDt ≤ x - t1 by linarith),
      gQ_of_ge hC.le (show rampDt ≤ x - (t1 + 2 * MB / maxRate) by linarith)]
    rw [abs_le]
    constructor <;> nlinarith [hS2lo, hS2hi, hF1, hF2]

set_option maxHeartbeats 1600000 in
/-- The smooth profile is `maxRate`-Lipschitz (never exceeds the maximum
bank rate between samples) under the separation hypotheses. -/
theorem hepSmoothS_rate (mB MB t1 t2 : ℝ) (hmB : 0 ≤ mB) (hMB : mB ≤ MB)
    (h1 : rampDt ≤ 2 * MB / maxRate) (h2 : rampDt ≤ (mB + MB) / maxRate)
    (hsep : t1 + 2 * MB / maxRate + rampDt ≤ t2) {s t : ℝ} (hst : s ≤ t) :
    |hepSmoothS t1 t2 mB MB t - hepSmoothS t1 t2 mB MB s| ≤
      maxRate * (t - s) := by
  have hA := maxAcc_pos
  have hC := rampDt_pos
  have hR := maxRate_pos
  have hRne : maxRate ≠ 0 := ne_of_gt hR
  have hq1 : 0 ≤ 2 * MB / maxRate := div_nonneg (by linarith) hR.le
  have hq2 : 0 ≤ (mB + MB) / maxRate := div_nonneg (by linarith) hR.le
  rw [hepSmoothS_closed mB MB t1 t2 t hmB hMB h1 h2 hsep,
    hepSmoothS_closed mB MB t1 t2 s hmB hMB h1 h2 hsep]
  have hsh1 := gQ_shift hA.le hC.le hq1 (show s - t1 ≤ t - t1 by linarith)
  rw [show t - t1 - 2 * MB / maxRate = t - (t1 + 2 * MB / maxRate) by ring,
    show s - t1 - 2 * MB / maxRate = s - (t1 + 2 * MB / maxRate) by ring] at hsh1
  have hsh2 := gQ_shift hA.le hC.le hq2 (show s - t2 ≤ t - t2 by linarith)
  rw [show t - t2 - (mB + MB) / maxRate = t - (t2 + (mB + MB) / maxRate) by ring,
    show s - t2 - (mB + MB) / maxRate = s - (t2 + (mB + MB) / maxRate) by ring] at hsh2
  have hm1 : gQ maxAcc rampDt (s - (t1 + 2 * MB / maxRate)) ≤
      gQ maxAcc rampDt (t - (t1 + 2 * MB / maxRate)) :=
    gQ_mono hA.le hC.le (by linarith)
  have hm2 : gQ maxAcc rampDt (s - (t2 + (mB + MB) / maxRate)) ≤
      gQ maxAcc rampDt (t - (t2 + (mB + MB) / maxRate)) :=
    gQ_mono hA.le hC.le (by linarith)
  have hl1 := gQ_lip hA.le hC.le (show s - t1 ≤ t - t1 by linarith)
  have hl2 := gQ_lip hA.le hC.le (show s - t2 ≤ t - t2 by linarith)
  rw [abs_le]
  constructor <;> nlinarith [hsh1, hsh2, hm1, hm2, hl1, hl2, maxRate_eq]

set_option maxHeartbeats 1600000 in
/-- On any sufficiently fine three-point stencil the smooth profile's
second difference is bounded by `maxAcc` times the squared spacing. -/
theorem hepSmoothS_dd (mB MB t1 t2 x h : ℝ) (hmB : 0 ≤ mB) (hMB : mB ≤ MB)
    (h1 : rampDt ≤ 2 * MB / maxRate) (h2 : rampDt ≤ (mB + MB) / maxRate)
    (hsep : t1 + 2 * MB / maxRate + rampDt ≤ t2) (hh : 0 ≤ h)
    (hwin1 : 2 * h ≤ 2 * MB / maxRate - rampDt)
    (hwin2 : 2 * h ≤ t2 - (t1 + 2 * MB / maxRate + rampDt))
    (hwin3 : 2 * h ≤ (mB + MB) / maxRate - rampDt) :
    |hepSmoothS t1 t2 mB MB (x + h) - 2 * hepSmoothS t1 t2 mB MB x +
        hepSmoothS t1 t2 mB MB (x - h)| ≤ maxAcc * h ^ 2 := by
  have hA := maxAcc_pos
  have hC := rampDt_pos
  have hR := maxRate_pos
  have hq1 : 0 ≤ 2 * MB / maxRate := div_nonneg (by linarith) hR.le
  have hq2 : 0 ≤ (mB + MB) / maxRate := div_nonneg (by linarith) hR.le
  rw [hepSmoothS_closed mB MB t1 t2 (x + h) hmB hMB h1 h2 hsep,
    hepSmoothS_closed mB MB t1 t2 x hmB hMB h1 h2 hsep,
    hepSmoothS_closed mB MB t1 t2 (x - h) hmB hMB h1 h2 hsep,
    show x + h - t1 = (x - t1) + h by ring,
    show x - h - t1 = (x - t1) - h by ring,
    show x + h - (t1 + 2 * MB / maxRate) = (x - (t1 + 2 * MB / maxRate)) + h by ring,
    show x - h - (t1 + 2 * MB / maxRate) = (x - (t1 + 2 * MB / maxRate)) - h by ring,
    show x + h - t2 = (x - t2) + h by ring,
    show x - h - t2 = (x - t2) - h by ring,
    show x + h - (t2 + (mB + MB) / maxRate) = (x - (t2 + (mB + MB) / maxRate)) + h by ring,
    show x - h - (t2 + (mB + MB) / maxRate) = (x - (t2 + (mB + MB) / maxRate)) - h by ring]
  have hA1 := gQ_dd (y := x - t1) hA.le hC.le hh
  have hB1 := gQ_dd (y := x - (t1 + 2 * MB / maxRate)) hA.le hC.le hh
  have hC1 := gQ_dd (y := x - t2) hA.le hC.le hh
  have hD1 := gQ_dd (y := x - (t2 + (mB + MB) / maxRate)) hA.le hC.le hh
  rcases le_total x (t1 + 2 * MB / maxRate - h) with hz1 | hz1
  · have hB0 := gQ_dd_left (k := maxAcc) (c := rampDt) hh
      (show (x - (t1 + 2 * MB / maxRate)) + h ≤ 0 by linarith)
    have hC0 := gQ_dd_left (k := maxAcc) (c := rampDt) hh
      (show (x - t2) + h ≤ 0 by linarith)
    have hD0 := gQ_dd_left (k := maxAcc) (c := rampDt) hh
      (show (x - (t2 + (mB + MB) / maxRate)) + h ≤ 0 by linarith)
    rw [abs_le]
    constructor <;> nlinarith [hA1.1, hA1.2, hB0, hC0, hD0]
  rcases le_total x (t2 - h) with hz2 | hz2
  · have hA0 := gQ_dd_right (k := maxAcc) hC.le hh
      (show rampDt ≤ (x - t1) - h by linarith)
    have hC0 := gQ_dd_left (k := maxAcc) (c := rampDt) hh
      (show (x - t2) + h ≤ 0 by linarith)
    have hD0 := gQ_dd_left (k := maxAcc) (c := rampDt) hh
      (show (x - (t2 + (mB + MB) / maxRate)) + h ≤ 0 by linarith)
    rw [abs_le]
    constructor <;> nlinarith [hB1.1, hB1.2, hA0, hC0, hD0]
  rcases le_total x (t2 + (mB + MB) / maxRate - h) with hz3 | hz3
  · have hA0 := gQ_dd_right (k := maxAcc) hC.le hh
      (show rampDt ≤ (x - t1) - h by linarith)
    have hB0 := gQ_dd_right (k := maxAcc) hC.le hh
      (show rampDt ≤ (x - (t1 + 2 * MB / maxRate)) - h by linarith)
    have hD0 := gQ_dd_left (k := maxAcc) (c := rampDt) hh
      (show (x - (t2 + (mB + MB) / maxRate)) + h ≤ 0 by linarith)
    rw [abs_le]
    constructor <;> nlinarith [hC1.1, hC1.2, hA0, hB0, hD0]
  · have hA0 := gQ_dd_right (k := maxAcc) hC.le hh
      (show rampDt ≤ (x - t1) - h by linarith)
    have hB0 := gQ_dd_right (k := maxAcc) hC.le hh
      (show rampDt ≤ (x - (t1 + 2 * MB / maxRate)) - h by linarith)
    have hC0 := gQ_dd_right (k := maxAcc) hC.le hh
      (show rampDt ≤ (x - t2) - h by linarith)
    rw [abs_le]
    constructor <;> nlinarith [hD1.1, hD1.2, hA0, hB0, hC0]

/-- C8 counterexample: the claim asserts the rate bound for EVERY
non-negative strictly ascending switch triple on every sufficiently fine
grid.  For `HEPBank` with the strictly ascending times `(0, 1, 2)` and
the default bank limits, consecutive samples at `5` and `5.1` jump by
`82π/180` rad — far beyond `maxRate·0.1 = 2π/180` — because the profile
is discontinuous when the switch times are closer than the ramp
durations; no grid refinement removes the jump. -/
theorem c8_counterexample :
    ((0 : ℝ) ≤ 0 ∧ (0 : ℝ) < 1 ∧ (1 : ℝ) < 2) ∧
    |hepBankS 0 1 2 (radians 15) (radians 85) (51 / 10) -
        hepBankS 0 1 2 (radians 15) (radians 85) 5| >
      maxRate * (51 / 10 - 5) := by
  have hpi := Real.pi_pos
  have hpine := Real.pi_ne_zero
  have hq1 : (radians 85 + radians 15) / maxRate = 5 := by
    simp only [radians, maxRate]
    field_simp
    ring
  have hq2 : 2 * radians 85 / maxRate = 17 / 2 := by
    simp only [radians, maxRate]
    field_simp
    ring
  have e5 : hepBankS 0 1 2 (radians 15) (radians 85) 5 =
      -(radians 15) + maxRate * (5 - 0) := by
    simp only [hepBankS]
    rw [if_neg (by norm_num), if_pos ⟨by norm_num, by rw [zero_add, hq1]⟩]
  have e51 : hepBankS 0 1 2 (radians 15) (radians 85) (51 / 10) =
      radians 85 - maxRate * (51 / 10 - 1) := by
    simp only [hepBankS]
    rw [if_neg (by norm_num),
      if_neg (by rintro ⟨-, hc⟩; rw [zero_add, hq1] at hc; norm_num at hc),
      if_neg (by rintro ⟨-, hc⟩; norm_num at hc),
      if_pos ⟨by norm_num, by rw [hq2]; norm_num⟩]
  refine ⟨⟨le_refl 0, by norm_num, by norm_num⟩, ?_⟩
  rw [e51, e5]
  have key : radians 85 - maxRate * (51 / 10 - 1) -
      (-(radians 15) + maxRate * (5 - 0)) = -(82 * π / 180) := by
    simp only [radians, maxRate]
    ring
  rw [key, abs_neg, abs_of_pos (by positivity)]
  simp only [maxRate, radians]
  nlinarith [hpi]

/-- C8 (amended): under switch times separated by at least the ramp
durations, the rectangular profile `HEPBank` stays within `±maxBank` and
changes by at most `maxRate` times the spacing between any two
non-negative samples; the smooth profile `HEPBankReducedSmooth`, under
its own separation conditions (`t1d ≤ t2` and transitions that reach the
maximum-rate phase), stays within `±maxBank`, is `maxRate`-Lipschitz,
and on every three-point stencil finer than half the gaps between its
four curvature windows its second difference is at most `maxAcc` times
the squared spacing. -/
theorem c8_profile_limits :
    (∀ mB MB t1 t2 t3 : ℝ, 0 ≤ mB → mB ≤ MB → 0 ≤ t1 →
      t1 + (MB + mB) / maxRate ≤ t2 → t2 + 2 * MB / maxRate ≤ t3 →
      ∀ s t : ℝ, 0 ≤ s → s ≤ t →
        |hepBankS t1 t2 t3 mB MB t| ≤ MB ∧
        |hepBankS t1 t2 t3 mB MB t - hepBankS t1 t2 t3 mB MB s| ≤
          maxRate * (t - s)) ∧
    (∀ mB MB t1 t2 : ℝ, 0 ≤ mB → mB ≤ MB →
      rampDt ≤ 2 * MB / maxRate → rampDt ≤ (mB + MB) / maxRate →
      t1 + 2 * MB / maxRate + rampDt ≤ t2 →
      (∀ s t : ℝ, s ≤ t →
        |hepSmoothS t1 t2 mB MB t| ≤ MB ∧
        |hepSmoothS t1 t2 mB MB t - hepSmoothS t1 t2 mB MB s| ≤
          maxRate * (t - s)) ∧
      (∀ x h : ℝ, 0 ≤ h → 2 * h ≤ 2 * MB / maxRate - rampDt →
        2 * h ≤ t2 - (t1 + 2 * MB / maxRate + rampDt) →
        2 * h ≤ (mB + MB) / maxRate - rampDt →
        |hepSmoothS t1 t2 mB MB (x + h) - 2 * hepSmoothS t1 t2 mB MB x +
            hepSmoothS t1 t2 mB MB (x - h)| ≤ maxAcc * h ^ 2)) := by
  constructor
  · intro mB MB t1 t2 t3 hmB hMB ht1 h12 h23 s t hs hst
    exact ⟨hepBankS_abs_le mB MB t1 t2 t3 t hmB hMB,
      hepBankS_rate mB MB t1 t2 t3 hmB hMB ht1 h12 h23 hs hst⟩
  · intro mB MB t1 t2 hmB hMB h1 h2 hsep
    constructor
    · intro s t hst
      exact ⟨hepSmoothS_abs_le mB MB t1 t2 t hmB hMB h1 h2 hsep,
        hepSmoothS_rate mB MB t1 t2 hmB hMB h1 h2 hsep hst⟩
    · intro x h hh hw1 hw2 hw3
      exact hepSmoothS_dd mB MB t1 t2 x h hmB hMB h1 h2 hsep hh hw1 hw2 hw3

theorem c8_profile_limits_witness :
    (((0 : ℝ) ≤ 0 ∧ (0 : ℝ) ≤ maxRate ∧ (0 : ℝ) + (maxRate + 0) / maxRate ≤ 1 ∧
        (1 : ℝ) + 2 * maxRate / maxRate ≤ 3) ∧
      |hepBankS 0 1 3 0 maxRate 1| ≤ maxRate ∧
      |hepBankS 0 1 3 0 maxRate 1 - hepBankS 0 1 3 0 maxRate 0| ≤
        maxRate * (1 - 0)) ∧
    (((0 : ℝ) ≤ radians 15 ∧ radians 15 ≤ radians 85 ∧
        rampDt ≤ 2 * radians 85 / maxRate ∧
        rampDt ≤ (radians 15 + radians 85) / maxRate ∧
        (0 : ℝ) + 2 * radians 85 / maxRate + rampDt ≤ 20) ∧
      (|hepSmoothS 0 20 (radians 15) (radians 85) 1| ≤ radians 85 ∧
        |hepSmoothS 0 20 (radians 15) (radians 85) 1 -
            hepSmoothS 0 20 (radians 15) (radians 85) 0| ≤ maxRate * (1 - 0)) ∧
      |hepSmoothS 0 20 (radians 15) (radians 85) (0 + 1 / 2) -
          2 * hepSmoothS 0 20 (radians 15) (radians 85) 0 +
          hepSmoothS 0 20 (radians 15) (radians 85) (0 - 1 / 2)| ≤
        maxAcc * (1 / 2) ^ 2) := by
  have hpi := Real.pi_pos
  have hpine := Real.pi_ne_zero
  have hR := maxRate_pos
  have hRne : maxRate ≠ 0 := ne_of_gt hR
  have hMq : (0 : ℝ) + (maxRate + 0) / maxRate ≤ 1 := by
    rw [add_zero, div_self hRne, zero_add]
  have h2q : (1 : ℝ) + 2 * maxRate / maxRate ≤ 3 := by
    rw [mul_div_assoc, div_self hRne]
    norm_num
  have hdt4 : rampDt = 4 := by
    simp only [rampDt, maxRate, maxAcc, radians]
    field_simp
    ring
  have h85 : 2 * radians 85 / maxRate = 17 / 2 := by
    simp only [radians, maxRate]
    field_simp
    ring
  have h100 : (radians 15 + radians 85) / maxRate = 5 := by
    simp only [radians, maxRate]
    field_simp
    ring
  have hr15 : (0 : ℝ) ≤ radians 15 := by
    simp only [radians]
    positivity
  have hr1585 : radians 15 ≤ radians 85 := by
    simp only [radians]
    nlinarith [hpi]
  have hA := c8_profile_limits.1 0 maxRate 0 1 3 le_rfl hR.le le_rfl hMq h2q
    0 1 le_rfl (by norm_num)
  have hB := c8_profile_limits.2 (radians 15) (radians 85) 0 20 hr15 hr1585
    (by rw [hdt4, h85]; norm_num) (by rw [hdt4, h100]; norm_num)
    (by rw [hdt4, h85]; norm_num)
  refine ⟨⟨⟨le_rfl, hR.le, hMq, h2q⟩, hA.1, hA.2⟩,
    ⟨hr15, hr1585, by rw [hdt4, h85]; norm_num, by rw [hdt4, h100]; norm_num,
      by rw [hdt4, h85]; norm_num⟩,
    hB.1 0 1 (by norm_num),
    hB.2 0 (1 / 2) (by norm_num) (by rw [hdt4, h85]; norm_num)
      (by rw [hdt4, h85]; norm_num) (by rw [hdt4, h100]; norm_num)⟩
